import Mathlib

/-!
Verification development for the PyBaMM expression-tree core
(`src/pybamm/expression_tree/symbol.py`) and the 2D Chebyshev scikit-fem
submesh constructor
(`src/pybamm/meshes/two_dimensional_meshes/chebyshev_scikit_fem_submesh.py`).

Python objects live in a heap: a `Store` holds a list of `Obj` records, and an
object reference is its index (address) in that list.  Allocation appends at
the end of the list, mirroring the fact that each Python object created is a
fresh instance.  `copy.copy` (the stdlib shallow copy used by
`Symbol.__init__`) allocates a fresh object whose field values are shared
with the original; in particular the copy of a node holds the very same list
of child addresses as the original.

Python's builtin `hash`, used by `Symbol.id`, is modelled as a parameter
`h : HashInput → Int`: within a single process run it is some fixed function
of the tuple `(self.__class__, self.name, child ids...)`.  Determinism
theorems hold for every such `h`; order-sensitivity additionally assumes `h`
is collision-free (injective), which is how the fingerprint is intended to
behave.  A concrete injective `h` is provided for witnesses.
-/

/-- The concrete class of a node (`self.__class__` in `Symbol.id`).
`symbol` is the base class `pybamm.Symbol`; the four operator classes are the
ones returned by `__add__`, `__sub__`, `__mul__`, `__truediv__`. -/
inductive ClassTag where
  | symbol
  | addition
  | subtraction
  | multiplication
  | division
deriving DecidableEq

/-- A Python `Symbol` instance: its `_name`, and the anytree `NodeMixin`
bookkeeping — the ordered list of children (as heap addresses) and the
optional parent back-reference. -/
structure Obj where
  tag : ClassTag
  name : String
  children : List Nat
  parent : Option Nat
deriving DecidableEq

/-- Default object used with `List.getD`; never reachable under the validity
hypotheses of the theorems below. -/
def dObj : Obj := ⟨ClassTag.symbol, "", [], none⟩

/-- The Python heap: `heap` is the list of allocated objects (an address is an
index into it), and `defaultChildren` is the single shared list object that
Python creates once for the default argument `children=[]` of
`Symbol.__init__`. -/
structure Store where
  heap : List Obj
  defaultChildren : List Nat
deriving DecidableEq

/-- The empty heap at interpreter start: no objects, and the shared default
argument of `Symbol.__init__` is the empty list. -/
def emptyStore : Store := ⟨[], []⟩

/-- Update the object at address `a` in place (used for appending to a
parent's children list, as anytree's attach does). -/
def updateObj (σ : Store) (a : Nat) (f : Obj → Obj) : Store :=
  match σ.heap[a]? with
  | none => σ
  | some o => { σ with heap := σ.heap.set a (f o) }

/-- One loop iteration of `Symbol.__init__`: `copy.copy(child).parent = self`.
`copy.copy` allocates a fresh object sharing the original's field values
(shallow copy: the same name and the same children-address list).  Setting
`.parent` then attaches it: per the source's own comment ("this also adds
copy.copy(child) to self.children") and the spec, the copy's back-reference
is set to `self` and its address is appended to `self`'s children. -/
def attachCopy (σ : Store) (self child : Nat) : Store :=
  match σ.heap[child]? with
  | none => σ
  | some c =>
    let a := σ.heap.length
    let σ1 : Store := { σ with heap := σ.heap ++ [{ c with parent := some self }] }
    updateObj σ1 self (fun o => { o with children := o.children ++ [a] })

/-- The `for child in children` loop of `Symbol.__init__`. -/
def attachAll (σ : Store) (self : Nat) (cs : List Nat) : Store :=
  cs.foldl (fun s c => attachCopy s self c) σ

/-- Embedding of `Symbol.__init__(self, name, children)`: the instance `self`
is allocated first (concrete class `tag`, `_name := name`, no children, no
parent), then each entry of `children` is shallow-copied and attached in
order. -/
def symbolInit (σ : Store) (tag : ClassTag) (name : String) (children : List Nat) :
    Store × Nat :=
  let self := σ.heap.length
  (attachAll { σ with heap := σ.heap ++ [⟨tag, name, [], none⟩] } self children, self)

/-- `Symbol.__init__` with the `children` argument possibly omitted: Python
evaluates the default `[]` once at function definition time and shares that
one list across all calls; an omitted argument (`none`) therefore reads the
store's `defaultChildren`. -/
def symbolInitOpt (σ : Store) (tag : ClassTag) (name : String) :
    Option (List Nat) → Store × Nat
  | some ch => symbolInit σ tag name ch
  | none => symbolInit σ tag name σ.defaultChildren

/-- The shallow copy of `o` attached under parent `p`. -/
def copyObj (o : Obj) (p : Nat) : Obj := { o with parent := some p }

/-- The four arithmetic constructors exposed by `Symbol`. -/
inductive BinKind where
  | add
  | sub
  | mul
  | div
deriving DecidableEq

/-- Concrete class built by each operator (`pybamm.Addition`, ...). -/
def opTag : BinKind → ClassTag
  | .add => ClassTag.addition
  | .sub => ClassTag.subtraction
  | .mul => ClassTag.multiplication
  | .div => ClassTag.division

/-- Canonical operator name of each operator class. -/
def opName : BinKind → String
  | .add => "+"
  | .sub => "-"
  | .mul => "*"
  | .div => "/"

/-- Errors raised by the modelled code.  `unsupportedOperand` is the
`NotImplementedError` raised by `__add__`/`__sub__`/`__mul__`/`__truediv__`
(the spec's `UnsupportedOperand`); `evaluationNotImplemented` is the
`NotImplementedError` raised by `Symbol.evaluate`, which formats the node's
name (`{!s}`, via `__str__`) and its concrete class (`type(self)`) into the
message; the last two are `pybamm.GeometryError` and `pybamm.DomainError`
raised by `ScikitChebyshev2DSubMesh.__init__`. -/
inductive PyError where
  | unsupportedOperand (op : String)
  | evaluationNotImplemented (name : String) (tag : ClassTag)
  | geometryError (msg : String)
  | domainError (msg : String)
deriving DecidableEq

/-- The right operand of an arithmetic operator: either a reference to a
`Symbol` instance, or a non-`Symbol` Python value (represented by the numeric
literals the spec discusses, e.g. `5`). -/
inductive Operand where
  | sym (a : Nat)
  | num (n : Int)
deriving DecidableEq

/-- Modelled from the spec: `pybamm.Addition` / `Subtraction` /
`Multiplication` / `Division` (defined outside the excerpted core) are
`Symbol` subclasses whose constructor runs `Symbol.__init__` with the
operator's canonical name and `children = [self, other]` in that order. -/
def binOpInit (σ : Store) (k : BinKind) (a b : Nat) : Store × Nat :=
  symbolInit σ (opTag k) (opName k) [a, b]

/-- Embedding of `Symbol.__add__`/`__sub__`/`__mul__`/`__truediv__`: if
`other` is a `Symbol` instance, construct the operator node; otherwise raise
`NotImplementedError` before anything is built (the store is returned
untouched). -/
def symbolBinOp (σ : Store) (k : BinKind) (self : Nat) (other : Operand) :
    Store × Except PyError Nat :=
  match other with
  | .sym b => let r := binOpInit σ k self b; (r.1, Except.ok r.2)
  | .num _ => (σ, Except.error (PyError.unsupportedOperand (opName k)))

/-- Embedding of `Symbol.evaluate(self, t=None, y=None)`: unconditionally
raises `NotImplementedError` whose message is formatted from `str(self)`
(the node's `_name`) and `type(self)` (its concrete class).  `t` and `y`
default to `None` (`Option.none`); the model takes numeric values as `Int`
since no value is ever consumed. -/
def symbolEvaluate (σ : Store) (self : Nat) (_t _y : Option Int) :
    Except PyError Int :=
  match σ.heap[self]? with
  | none => Except.error (PyError.evaluationNotImplemented "" ClassTag.symbol)
  | some o => Except.error (PyError.evaluationNotImplemented o.name o.tag)

/-- Input tuple of the fingerprint: `(self.__class__, self.name)` followed by
the child ids, exactly the tuple `Symbol.id` passes to `hash`. -/
abbrev HashInput : Type := ClassTag × String × List Int

/-- Sequence a list of optional values (`none` if any entry is `none`). -/
def optionSeq : List (Option α) → Option (List α)
  | [] => some []
  | o :: os =>
    match o with
    | none => none
    | some a =>
      match optionSeq os with
      | none => none
      | some as => some (a :: as)

/-- Embedding of the `Symbol.id` property for a given in-process `hash`
function `h`: recompute, on each call, `h` applied to the class tag, the
name, and the recursively computed ids of the children in stored order.
`fuel` bounds the recursion depth (Python's recursion assumes the finite
trees produced by construction); `none` means the depth bound was exceeded
or an address was dangling. -/
def symbolId (h : HashInput → Int) (σ : Store) : Nat → Nat → Option Int
  | 0, _ => none
  | fuel + 1, a =>
    match σ.heap[a]? with
    | none => none
    | some o =>
      match optionSeq (o.children.map (fun c => symbolId h σ fuel c)) with
      | none => none
      | some ids => some (h (o.tag, o.name, ids))

/-- A pure expression tree: the structural content (class tags, names, child
structure) of a stored node, forgetting addresses and parents. -/
inductive SymbolTree where
  | node (tag : ClassTag) (name : String) (children : List SymbolTree)

/-- The structural content of the node at address `a` (with depth fuel). Two
stored nodes are structurally identical exactly when they have the same
shape. -/
def shape (σ : Store) : Nat → Nat → Option SymbolTree
  | 0, _ => none
  | fuel + 1, a =>
    match σ.heap[a]? with
    | none => none
    | some o =>
      match optionSeq (o.children.map (fun c => shape σ fuel c)) with
      | none => none
      | some ts => some (SymbolTree.node o.tag o.name ts)

mutual

/-- The fingerprint of a pure tree: `h` over the tag, the name and the
children's fingerprints in order — the combinator `Symbol.id` computes. -/
def treeId (h : HashInput → Int) : SymbolTree → Int
  | .node t n cs => h (t, n, treeIdList h cs)

/-- Fingerprints of a list of trees, in order. -/
def treeIdList (h : HashInput → Int) : List SymbolTree → List Int
  | [] => []
  | t :: ts => treeId h t :: treeIdList h ts

end

/-- Embedding of `Symbol.pre_order` (`anytree.PreOrderIter(self)`), per the
source's own doctest (`(a*b).pre_order()` prints `*`, `a`, `b`) and the spec:
yield the node, then each child's pre-order sequence, children left-to-right
in stored order.  `fuel` bounds the depth. -/
def pre_order (σ : Store) : Nat → Nat → List Nat
  | 0, _ => []
  | fuel + 1, a =>
    match σ.heap[a]? with
    | none => []
    | some o => a :: o.children.flatMap (fun c => pre_order σ fuel c)

/-- A call of `pre_order()` followed by full consumption of the returned
iterator: the iterator only reads the tree (anytree's `PreOrderIter` calls no
setters), so consumption yields the address sequence and leaves the store as
it was. -/
def preOrderRun (σ : Store) (fuel a : Nat) : List Nat × Store :=
  (pre_order σ fuel a, σ)

/-- One client-visible construction step: a direct `Symbol(...)` construction
(`children = none` meaning the argument was omitted, so the shared default is
used) or an arithmetic-operator construction. -/
inductive ConstructOp where
  | create (tag : ClassTag) (name : String) (children : Option (List Nat))
  | binop (k : BinKind) (self : Nat) (other : Operand)

/-- Effect of one construction step on the store. -/
def runOp (σ : Store) : ConstructOp → Store
  | .create t n ch => (symbolInitOpt σ t n ch).1
  | .binop k s o => (symbolBinOp σ k s o).1

/-- Effect of a sequence of construction steps. -/
def runOps (σ : Store) (ops : List ConstructOp) : Store :=
  ops.foldl runOp σ

/-- Spatial variable leaf as read by the mesh collaborator: its `name`, its
coordinate-system tag `coord_sys`, and its structural `id` (used only as the
lookup key into `npts`). -/
structure SpatialVar where
  name : String
  coord_sys : String
  id : Nat
deriving DecidableEq

/-- The `lims[var]` entry: `{"min": a, "max": b}`. -/
structure Limits where
  min : ℚ
  max : ℚ
deriving DecidableEq

/-- Modelled from the spec: the base class `ScikitSubMesh2D.__init__` (not in
the excerpt) stores the computed edges, the agreed coordinate system and the
tabs on the submesh object; it performs no further validation relevant here. -/
structure ScikitSubMesh2D (T : Type) where
  edges : List (String × List ℚ)
  coord_sys : String
  tabs : T
deriving DecidableEq

/-- The Chebyshev edge computation of the constructor body for one variable:
`N = npts[var.id] - 2` Chebyshev nodes on `(a, b)` (computed with `np.cos`,
modelled by the parameter `cos`, and `np.pi`, modelled by the parameter
`pi`; floating point is not modelled), flipped into ascending order and
bracketed by the interval endpoints. -/
def chebEdges (cos : ℚ → ℚ) (pi : ℚ) (a b : ℚ) (n : Nat) : List ℚ :=
  let N : Int := (n : Int) - 2
  let ii : List Int := (List.range N.toNat).map (fun k => (k : Int) + 1)
  let x_cheb : List ℚ :=
    ii.map (fun i => (a + b) / 2 + (b - a) / 2 * cos ((2 * (i : ℚ) - 1) * pi / 2 / (N : ℚ)))
  [a] ++ x_cheb.reverse ++ [b]

/-- One iteration of the `for var in spatial_vars` loop: reject a variable
whose name is not `y` or `z` with `pybamm.DomainError`, otherwise produce the
`edges[var.name]` entry. -/
def edgesFor (cos : ℚ → ℚ) (pi : ℚ) (npts : Nat → Nat) (v : SpatialVar) (lim : Limits) :
    Except PyError (String × List ℚ) :=
  if v.name ∈ (["y", "z"] : List String) then
    Except.ok (v.name, chebEdges cos pi lim.min lim.max (npts v.id))
  else
    Except.error (PyError.domainError ("spatial variable must be y or z not " ++ v.name))

/-- Embedding of `ScikitChebyshev2DSubMesh.__init__(self, lims, npts, tabs)`:
`lims` is the insertion-ordered dict as an association list, `npts` the map
from a variable's `id` to its point count, `tabs` opaque pass-through data.
Checks, in source order: exactly two variables (`pybamm.GeometryError`),
agreeing coordinate systems (`pybamm.DomainError`), then the per-variable
edge loop; on success the base-class constructor stores the results. -/
def scikitChebyshev2DSubMeshInit (cos : ℚ → ℚ) (pi : ℚ)
    (lims : List (SpatialVar × Limits)) (npts : Nat → Nat) (tabs : T) :
    Except PyError (ScikitSubMesh2D T) :=
  if lims.length ≠ 2 then
    Except.error (PyError.geometryError
      ("lims should contain exactly two variables, not " ++ toString lims.length))
  else
    match lims with
    | [(v1, l1), (v2, l2)] =>
      if v1.coord_sys = v2.coord_sys then
        match edgesFor cos pi npts v1 l1 with
        | Except.error e => Except.error e
        | Except.ok e1 =>
          match edgesFor cos pi npts v2 l2 with
          | Except.error e => Except.error e
          | Except.ok e2 => Except.ok ⟨[e1, e2], v1.coord_sys, tabs⟩
      else
        Except.error (PyError.domainError
          ("spatial variables should have the same coordinate system, but have coordinate systems "
            ++ v1.coord_sys ++ " and " ++ v2.coord_sys))
    | _ =>
      Except.error (PyError.geometryError
        ("lims should contain exactly two variables, not " ++ toString lims.length))

/-- Heap holding leaves `x`, `y` and the node `x + y`, built in that order. -/
def c1StoreA : Store :=
  (binOpInit (symbolInit (symbolInit emptyStore ClassTag.symbol "x" []).1
    ClassTag.symbol "y" []).1 BinKind.add 0 1).1

/-- A second heap with the same trees built from different instances in a
different order (`y` allocated before `x`). -/
def c1StoreB : Store :=
  (binOpInit (symbolInit (symbolInit emptyStore ClassTag.symbol "y" []).1
    ClassTag.symbol "x" []).1 BinKind.add 1 0).1

/-- The common structural content of the two `x + y` nodes. -/
def c1Shape : SymbolTree :=
  SymbolTree.node ClassTag.addition "+"
    [SymbolTree.node ClassTag.symbol "x" [], SymbolTree.node ClassTag.symbol "y" []]

/-- Heap holding the two leaves used by the C2 witness. -/
def c2W : Store :=
  (symbolInit (symbolInit emptyStore ClassTag.symbol "a" []).1 ClassTag.symbol "b" []).1

/-- Heap with one leaf, used by the C4 and C5 witnesses. -/
def c4W : Store := (symbolInit emptyStore ClassTag.symbol "a" []).1

/-- Heap holding the three leaves used by the C6 witness. -/
def c6W : Store :=
  (symbolInit (symbolInit (symbolInit emptyStore ClassTag.symbol "a" []).1
    ClassTag.symbol "b" []).1 ClassTag.symbol "c" []).1

/-- The heap and address produced by `a + b` in the C6 witness. -/
def c6P : Store × Nat := binOpInit c6W BinKind.add 0 1

/-- The heap and address produced by `(a + b) * c` in the C6 witness. -/
def c6Q : Store × Nat := binOpInit c6P.1 BinKind.mul c6P.2 2

/-- The heap and address produced by `a + b` in the C7 witness. -/
def c7P : Store × Nat := binOpInit c2W BinKind.add 0 1

/-- The heap and address produced by then building `b + a` in the C7
witness. -/
def c7Q : Store × Nat := binOpInit c7P.1 BinKind.add 1 0

/-- The deep exclusive-ownership invariant claimed by the spec for every
constructed tree: every address recorded as a child anywhere in the store
has its parent back-reference set to the node that records it. -/
def OwnedChildren (σ : Store) : Prop :=
  ∀ (i : Nat) (o : Obj), σ.heap[i]? = some o →
    ∀ c ∈ o.children, ∃ co, σ.heap[c]? = some co ∧ co.parent = some i

/-- Heap produced by `a = Symbol("a")`, `b = Symbol("b")`, `c = Symbol("c")`,
`p = a + b`, `q = p * c` — i.e. the tree `(a + b) * c`.  Addresses: leaves
0, 1, 2; `p` at 3 with copies of the leaves at 4, 5; `q` at 6 with the
shallow copy of `p` at 7 and the copy of `c` at 8. -/
def cexStore : Store :=
  (symbolBinOp (symbolBinOp (symbolInitOpt (symbolInitOpt (symbolInitOpt emptyStore
    ClassTag.symbol "a" none).1 ClassTag.symbol "b" none).1 ClassTag.symbol "c" none).1
    BinKind.add 0 (Operand.sym 1)).1 BinKind.mul 3 (Operand.sym 2)).1

/-- Numeric code of a class tag (used only to build a concrete collision-free
hash function for the witnesses below). -/
def tagCode : ClassTag → Nat
  | .symbol => 0
  | .addition => 1
  | .subtraction => 2
  | .multiplication => 3
  | .division => 4

/-- Injective code of a list of naturals. -/
def natListCode : List Nat → Nat
  | [] => 0
  | a :: l => Nat.pair a (natListCode l) + 1

/-- Injective code of a string (via its character codepoints). -/
def strCode (s : String) : Nat := natListCode (s.data.map Char.toNat)

/-- Injective code of an integer. -/
def intCode : Int → Nat
  | .ofNat n => 2 * n
  | .negSucc n => 2 * n + 1

/-- A concrete collision-free in-process hash function, used to instantiate
the hash parameter in witnesses. -/
def hashConc (x : HashInput) : Int :=
  Int.ofNat (Nat.pair (tagCode x.1)
    (Nat.pair (strCode x.2.1) (natListCode (x.2.2.map intCode))))

theorem getElem?_append_length (l₁ : List α) (x : α) (l₂ : List α) :
    (l₁ ++ x :: l₂)[l₁.length]? = some x := by
  rw [List.getElem?_append_right (Nat.le_refl _)]
  simp

theorem set_append_length (l₁ : List α) (x y : α) (l₂ : List α) :
    (l₁ ++ x :: l₂).set l₁.length y = l₁ ++ y :: l₂ := by
  rw [List.set_append_right _ _ (Nat.le_refl _)]
  simp

/-- Characterization of the attach loop of `Symbol.__init__`, run on a store
whose heap is `H ++ S :: T` with the freshly allocated `self` at address
`H.length` and every child address pointing into `H`: each child in turn is
shallow-copied to a fresh address (the copies end up at the consecutive
addresses after the existing heap) and recorded, in order, in `self`'s
children list. -/
theorem attachAll_spec (H : List Obj) (d : List Nat) :
    ∀ (cs : List Nat) (S : Obj) (T : List Obj), (∀ c ∈ cs, c < H.length) →
      attachAll ⟨H ++ S :: T, d⟩ H.length cs =
        ⟨H ++ { S with children := S.children ++ List.range' (H.length + T.length + 1) cs.length }
            :: (T ++ cs.map (fun c => copyObj (H.getD c dObj) H.length)), d⟩ := by
  intro cs
  induction cs with
  | nil =>
    intro S T _
    simp [attachAll]
  | cons c cs ih =>
    intro S T hcs
    have hc : c < H.length := hcs c (List.mem_cons_self c cs)
    have hgetD : H.getD c dObj = H[c] := by
      rw [List.getD_eq_getElem?_getD, List.getElem?_eq_getElem hc]
      rfl
    have hlook : (H ++ S :: T)[c]? = some (H.getD c dObj) := by
      rw [List.getElem?_append_left hc, List.getElem?_eq_getElem hc, hgetD]
    have hlen : (H ++ S :: T).length = H.length + T.length + 1 := by
      simp [List.length_append]
      omega
    have hstep : attachCopy ⟨H ++ S :: T, d⟩ H.length c =
        ⟨H ++ { S with children := S.children ++ [H.length + T.length + 1] }
            :: (T ++ [copyObj (H.getD c dObj) H.length]), d⟩ := by
      simp only [attachCopy, hlook, updateObj, hlen]
      have hassoc : (H ++ S :: T) ++ [copyObj (H.getD c dObj) H.length] =
          H ++ S :: (T ++ [copyObj (H.getD c dObj) H.length]) := by
        simp [copyObj]
      simp only [copyObj] at hassoc
      simp only [hassoc, getElem?_append_length, set_append_length, copyObj]
    rw [show attachAll ⟨H ++ S :: T, d⟩ H.length (c :: cs) =
        attachAll (attachCopy ⟨H ++ S :: T, d⟩ H.length c) H.length cs from rfl]
    rw [hstep]
    rw [ih _ _ (fun x hx => hcs x (List.mem_cons_of_mem c hx))]
    have hrange : List.range' (H.length + T.length + 1) (cs.length + 1) =
        (H.length + T.length + 1) :: List.range' (H.length + T.length + 2) cs.length := by
      rw [List.range'_succ]
    simp [hrange, List.length_append]
    omega

/-- Characterization of `Symbol.__init__` when every supplied child address
is valid: the new node is allocated at the old heap end; its recorded
children are the fresh consecutive addresses right after it, holding shallow
copies of the originals whose back-reference is the new node; no existing
object is touched and the shared default-children list is untouched. -/
theorem symbolInit_spec (σ : Store) (tag : ClassTag) (name : String) (cs : List Nat)
    (hcs : ∀ c ∈ cs, c < σ.heap.length) :
    symbolInit σ tag name cs =
      (⟨σ.heap ++ ⟨tag, name, List.range' (σ.heap.length + 1) cs.length, none⟩
          :: cs.map (fun c => copyObj (σ.heap.getD c dObj) σ.heap.length),
        σ.defaultChildren⟩,
       σ.heap.length) := by
  unfold symbolInit
  show (attachAll ⟨σ.heap ++ (⟨tag, name, [], none⟩ : Obj) :: [], σ.defaultChildren⟩
      σ.heap.length cs, σ.heap.length) = _
  rw [attachAll_spec σ.heap σ.defaultChildren cs ⟨tag, name, [], none⟩ [] hcs]
  simp

theorem getElem?_append_cons_succ (l₁ : List α) (x : α) (l₂ : List α) (i : Nat) :
    (l₁ ++ x :: l₂)[l₁.length + 1 + i]? = l₂[i]? := by
  rw [List.getElem?_append_right (by omega)]
  have hidx : l₁.length + 1 + i - l₁.length = i + 1 := by omega
  rw [hidx]
  simp

/-- Nodes whose records agree on the id-relevant fields (class tag, name,
children addresses) have the same id at every fuel — in particular a shallow
copy is id-equal to its original. -/
theorem symbolId_congr (h : HashInput → Int) (σ : Store) (x y : Nat) (ox oy : Obj)
    (hx : σ.heap[x]? = some ox) (hy : σ.heap[y]? = some oy) (ht : ox.tag = oy.tag)
    (hn : ox.name = oy.name) (hc : ox.children = oy.children) :
    ∀ fuel, symbolId h σ fuel x = symbolId h σ fuel y := by
  intro fuel
  cases fuel with
  | zero => rfl
  | succ f => simp only [symbolId, hx, hy, ht, hn, hc]

theorem updateObj_defaultChildren (σ : Store) (a : Nat) (f : Obj → Obj) :
    (updateObj σ a f).defaultChildren = σ.defaultChildren := by
  unfold updateObj
  cases σ.heap[a]? <;> rfl

theorem attachCopy_defaultChildren (σ : Store) (s c : Nat) :
    (attachCopy σ s c).defaultChildren = σ.defaultChildren := by
  unfold attachCopy
  cases σ.heap[c]? with
  | none => rfl
  | some o => exact updateObj_defaultChildren _ _ _

theorem attachAll_defaultChildren (σ : Store) (s : Nat) (cs : List Nat) :
    (attachAll σ s cs).defaultChildren = σ.defaultChildren := by
  induction cs generalizing σ with
  | nil => rfl
  | cons c cs ih =>
    rw [show attachAll σ s (c :: cs) = attachAll (attachCopy σ s c) s cs from rfl,
      ih, attachCopy_defaultChildren]

theorem symbolInit_defaultChildren (σ : Store) (t : ClassTag) (n : String) (cs : List Nat) :
    (symbolInit σ t n cs).1.defaultChildren = σ.defaultChildren := by
  unfold symbolInit
  exact attachAll_defaultChildren _ _ _

theorem symbolInitOpt_defaultChildren (σ : Store) (t : ClassTag) (n : String)
    (ch : Option (List Nat)) :
    (symbolInitOpt σ t n ch).1.defaultChildren = σ.defaultChildren := by
  cases ch <;> exact symbolInit_defaultChildren _ _ _ _

theorem runOp_defaultChildren (σ : Store) (op : ConstructOp) :
    (runOp σ op).defaultChildren = σ.defaultChildren := by
  cases op with
  | create t n ch => exact symbolInitOpt_defaultChildren _ _ _ _
  | binop k s o =>
    cases o with
    | sym b => exact symbolInit_defaultChildren _ _ _ _
    | num n => rfl

theorem runOps_defaultChildren (ops : List ConstructOp) (σ : Store) :
    (runOps σ ops).defaultChildren = σ.defaultChildren := by
  induction ops generalizing σ with
  | nil => rfl
  | cons op ops ih =>
    rw [show runOps σ (op :: ops) = runOps (runOp σ op) ops from rfl, ih,
      runOp_defaultChildren]

theorem optionSeq_cons_none (os : List (Option α)) :
    optionSeq (none :: os) = none := rfl

theorem optionSeq_cons_some (a : α) (os : List (Option α)) (as : List α)
    (h : optionSeq os = some as) : optionSeq (some a :: os) = some (a :: as) := by
  simp [optionSeq, h]

theorem optionSeq_cons_some_none (a : α) (os : List (Option α))
    (h : optionSeq os = none) : optionSeq (some a :: os) = none := by
  simp [optionSeq, h]

theorem optionSeq_map_symbolId (h : HashInput → Int) (σ : Store) (f : Nat)
    (ih : ∀ (a : Nat) (s : SymbolTree), shape σ f a = some s →
      symbolId h σ f a = some (treeId h s)) :
    ∀ (cs : List Nat) (ts : List SymbolTree),
      optionSeq (cs.map (fun c => shape σ f c)) = some ts →
      optionSeq (cs.map (fun c => symbolId h σ f c)) = some (treeIdList h ts) := by
  intro cs
  induction cs with
  | nil =>
    intro ts hts
    simp only [List.map_nil, optionSeq] at hts
    cases hts
    simp [optionSeq, treeIdList]
  | cons c cs ihl =>
    intro ts hts
    rw [List.map_cons] at hts
    cases hsh : shape σ f c with
    | none =>
      rw [hsh, optionSeq_cons_none] at hts
      cases hts
    | some s1 =>
      rw [hsh] at hts
      cases hseq : optionSeq (cs.map (fun c => shape σ f c)) with
      | none =>
        rw [optionSeq_cons_some_none _ _ hseq] at hts
        cases hts
      | some ts1 =>
        rw [optionSeq_cons_some _ _ _ hseq] at hts
        cases hts
        rw [List.map_cons, ih c s1 hsh, optionSeq_cons_some _ _ _ (ihl ts1 hseq),
          treeIdList]

/-- A node's recursively recomputed id is exactly the fingerprint combinator
applied to its structural content: whenever the node has a well-defined
(finite, non-dangling) shape, its id is the pure-tree fingerprint of that
shape. -/
theorem symbolId_eq_treeId (h : HashInput → Int) (σ : Store) :
    ∀ (fuel a : Nat) (s : SymbolTree), shape σ fuel a = some s →
      symbolId h σ fuel a = some (treeId h s) := by
  intro fuel
  induction fuel with
  | zero =>
    intro a s hs
    simp only [shape] at hs
    simp at hs
  | succ f ih =>
    intro a s hs
    rw [shape] at hs
    split at hs
    · exact absurd hs (by simp)
    · rename_i o hl
      split at hs
      · exact absurd hs (by simp)
      · rename_i ts hseq
        cases hs
        simp only [symbolId, hl, optionSeq_map_symbolId h σ f ih o.children ts hseq, treeId]

theorem tagCode_injective : Function.Injective tagCode := by
  intro a b hab
  cases a <;> cases b <;> first | rfl | exact absurd hab (by decide)

theorem natListCode_injective : Function.Injective natListCode := by
  intro l m
  induction l generalizing m with
  | nil =>
    intro hm
    cases m with
    | nil => rfl
    | cons b bs => simp [natListCode] at hm
  | cons a l ih =>
    intro hm
    cases m with
    | nil => simp [natListCode] at hm
    | cons b bs =>
      simp only [natListCode] at hm
      obtain ⟨h1, h2⟩ := Nat.pair_eq_pair.mp (Nat.add_right_cancel hm)
      rw [h1, ih h2]

theorem charToNat_injective : Function.Injective Char.toNat := by
  intro a b hab
  exact Char.eq_of_val_eq (UInt32.eq_of_toBitVec_eq (BitVec.eq_of_toNat_eq hab))

theorem strCode_injective : Function.Injective strCode := by
  intro s t hst
  exact String.ext (List.map_injective_iff.mpr charToNat_injective
    (natListCode_injective hst))

theorem intCode_injective : Function.Injective intCode := by
  intro a b hab
  cases a with
  | ofNat n =>
    cases b with
    | ofNat m =>
      simp only [intCode] at hab
      have hnm : n = m := by omega
      rw [hnm]
    | negSucc m =>
      simp only [intCode] at hab
      exact absurd hab (by omega)
  | negSucc n =>
    cases b with
    | ofNat m =>
      simp only [intCode] at hab
      exact absurd hab (by omega)
    | negSucc m =>
      simp only [intCode] at hab
      have hnm : n = m := by omega
      rw [hnm]

theorem hashConc_injective : Function.Injective hashConc := by
  intro x y hxy
  obtain ⟨t1, s1, l1⟩ := x
  obtain ⟨t2, s2, l2⟩ := y
  simp only [hashConc] at hxy
  obtain ⟨h1, h2⟩ := Nat.pair_eq_pair.mp (Int.ofNat.inj hxy)
  obtain ⟨h3, h4⟩ := Nat.pair_eq_pair.mp h2
  have e1 := tagCode_injective h1
  have e2 := strCode_injective h3
  have e3 := List.map_injective_iff.mpr intCode_injective (natListCode_injective h4)
  simp only [e1, e2, e3]

/-- The id of a leaf (a node whose children list is empty) unfolds in one
step. -/
theorem symbolId_leaf (h : HashInput → Int) (σ : Store) (a : Nat) (o : Obj)
    (ha : σ.heap[a]? = some o) (hl : o.children = []) (fuel : Nat) :
    symbolId h σ (fuel + 1) a = some (h (o.tag, o.name, [])) := by
  simp only [symbolId, ha, hl, List.map_nil, optionSeq]

/-- Characterization of an operator construction `pybamm.X(a, b)` on valid
operand addresses: the operator node is allocated at the old heap end with
exactly the two fresh copy addresses as children, the copies (shallow copies
of the operands, back-references set to the new node) right after it; the
rest of the heap and the default-children list are untouched. -/
theorem binOpInit_spec (σ : Store) (k : BinKind) (a b : Nat) (oa ob : Obj)
    (ha : σ.heap[a]? = some oa) (hb : σ.heap[b]? = some ob) :
    binOpInit σ k a b =
      (⟨σ.heap ++ ⟨opTag k, opName k, [σ.heap.length + 1, σ.heap.length + 2], none⟩
          :: [copyObj oa σ.heap.length, copyObj ob σ.heap.length],
        σ.defaultChildren⟩,
       σ.heap.length) := by
  obtain ⟨hla, -⟩ := List.getElem?_eq_some.mp ha
  obtain ⟨hlb, -⟩ := List.getElem?_eq_some.mp hb
  rw [binOpInit, symbolInit_spec σ (opTag k) (opName k) [a, b] ?valid]
  case valid =>
    intro c hc
    simp only [List.mem_cons, List.mem_singleton, List.not_mem_nil, or_false] at hc
    rcases hc with rfl | rfl
    · exact hla
    · exact hlb
  simp [ha, hb, List.range'_succ]

/-- C1: for every node with well-defined structural content, `id` equals the
fingerprint combinator applied to its shape — `h` over (concrete class tag,
name, children's ids in stored order), computed bottom-up — and consequently
any two structurally identical trees (same variant tags, names and child
structure), even held in different heaps (different object instances) within
the same process (same `h`), have equal `id`. -/
theorem C1_id_content_addressed (h : HashInput → Int) (σ σ' : Store)
    (a b fuel fuel' : Nat) (s : SymbolTree)
    (ha : shape σ fuel a = some s) (hb : shape σ' fuel' b = some s) :
    symbolId h σ fuel a = some (treeId h s) ∧
      symbolId h σ fuel a = symbolId h σ' fuel' b := by
  have h1 := symbolId_eq_treeId h σ fuel a s ha
  have h2 := symbolId_eq_treeId h σ' fuel' b s hb
  exact ⟨h1, h1.trans h2.symm⟩

theorem C1_witness :
    shape c1StoreA 2 2 = some c1Shape ∧ shape c1StoreB 2 2 = some c1Shape ∧
      (symbolId hashConc c1StoreA 2 2 = some (treeId hashConc c1Shape) ∧
        symbolId hashConc c1StoreA 2 2 = symbolId hashConc c1StoreB 2 2) :=
  ⟨rfl, rfl, C1_id_content_addressed hashConc c1StoreA c1StoreB 2 2 2 2 c1Shape rfl rfl⟩

/-- C2: after `c = a + b`, the node `c` has exactly the two fresh children
addresses recorded, in order; the first is id-equal to `a` and the second to
`b` (at every recursion depth and for every in-process hash); and the records
of `a` and `b` — in particular their parent back-references — are unchanged,
so `a` and `b` are not mutated in any way. -/
theorem C2_copy_on_attach (σ : Store) (a b : Nat) (oa ob : Obj)
    (ha : σ.heap[a]? = some oa) (hb : σ.heap[b]? = some ob) :
    (symbolBinOp σ BinKind.add a (Operand.sym b)).2 = Except.ok σ.heap.length ∧
    (symbolBinOp σ BinKind.add a (Operand.sym b)).1.heap[σ.heap.length]? =
      some ⟨ClassTag.addition, "+", [σ.heap.length + 1, σ.heap.length + 2], none⟩ ∧
    (∀ (h : HashInput → Int) (fuel : Nat),
      symbolId h (symbolBinOp σ BinKind.add a (Operand.sym b)).1 fuel (σ.heap.length + 1) =
        symbolId h (symbolBinOp σ BinKind.add a (Operand.sym b)).1 fuel a) ∧
    (∀ (h : HashInput → Int) (fuel : Nat),
      symbolId h (symbolBinOp σ BinKind.add a (Operand.sym b)).1 fuel (σ.heap.length + 2) =
        symbolId h (symbolBinOp σ BinKind.add a (Operand.sym b)).1 fuel b) ∧
    (symbolBinOp σ BinKind.add a (Operand.sym b)).1.heap[a]? = some oa ∧
    (symbolBinOp σ BinKind.add a (Operand.sym b)).1.heap[b]? = some ob := by
  obtain ⟨hla, -⟩ := List.getElem?_eq_some.mp ha
  obtain ⟨hlb, -⟩ := List.getElem?_eq_some.mp hb
  have hres : symbolBinOp σ BinKind.add a (Operand.sym b) =
      (⟨σ.heap ++ ⟨ClassTag.addition, "+", [σ.heap.length + 1, σ.heap.length + 2], none⟩
          :: [copyObj oa σ.heap.length, copyObj ob σ.heap.length], σ.defaultChildren⟩,
        Except.ok σ.heap.length) := by
    show ((binOpInit σ BinKind.add a b).1, Except.ok (binOpInit σ BinKind.add a b).2) = _
    rw [binOpInit_spec σ BinKind.add a b oa ob ha hb]
    rfl
  rw [hres]
  dsimp only
  have hlookA : (σ.heap ++ (⟨ClassTag.addition, "+",
      [σ.heap.length + 1, σ.heap.length + 2], none⟩ : Obj)
      :: [copyObj oa σ.heap.length, copyObj ob σ.heap.length])[a]? = some oa := by
    rw [List.getElem?_append_left hla]
    exact ha
  have hlookB : (σ.heap ++ (⟨ClassTag.addition, "+",
      [σ.heap.length + 1, σ.heap.length + 2], none⟩ : Obj)
      :: [copyObj oa σ.heap.length, copyObj ob σ.heap.length])[b]? = some ob := by
    rw [List.getElem?_append_left hlb]
    exact hb
  have hlookCA : (σ.heap ++ (⟨ClassTag.addition, "+",
      [σ.heap.length + 1, σ.heap.length + 2], none⟩ : Obj)
      :: [copyObj oa σ.heap.length, copyObj ob σ.heap.length])[σ.heap.length + 1]? =
      some (copyObj oa σ.heap.length) := by
    have := getElem?_append_cons_succ σ.heap
      (⟨ClassTag.addition, "+", [σ.heap.length + 1, σ.heap.length + 2], none⟩ : Obj)
      [copyObj oa σ.heap.length, copyObj ob σ.heap.length] 0
    simpa using this
  have hlookCB : (σ.heap ++ (⟨ClassTag.addition, "+",
      [σ.heap.length + 1, σ.heap.length + 2], none⟩ : Obj)
      :: [copyObj oa σ.heap.length, copyObj ob σ.heap.length])[σ.heap.length + 2]? =
      some (copyObj ob σ.heap.length) := by
    have := getElem?_append_cons_succ σ.heap
      (⟨ClassTag.addition, "+", [σ.heap.length + 1, σ.heap.length + 2], none⟩ : Obj)
      [copyObj oa σ.heap.length, copyObj ob σ.heap.length] 1
    simpa [Nat.add_assoc] using this
  refine ⟨rfl, getElem?_append_length _ _ _, ?_, ?_, hlookA, hlookB⟩
  · intro h fuel
    exact symbolId_congr h _ _ _ (copyObj oa σ.heap.length) oa hlookCA hlookA rfl rfl rfl fuel
  · intro h fuel
    exact symbolId_congr h _ _ _ (copyObj ob σ.heap.length) ob hlookCB hlookB rfl rfl rfl fuel

theorem C2_witness :
    c2W.heap[0]? = some ⟨ClassTag.symbol, "a", [], none⟩ ∧
    c2W.heap[1]? = some ⟨ClassTag.symbol, "b", [], none⟩ ∧
    (symbolBinOp c2W BinKind.add 0 (Operand.sym 1)).2 = Except.ok 2 ∧
    (symbolBinOp c2W BinKind.add 0 (Operand.sym 1)).1.heap[0]? =
      some ⟨ClassTag.symbol, "a", [], none⟩ :=
  ⟨rfl, rfl,
    (C2_copy_on_attach c2W 0 1 ⟨ClassTag.symbol, "a", [], none⟩
      ⟨ClassTag.symbol, "b", [], none⟩ rfl rfl).1,
    (C2_copy_on_attach c2W 0 1 ⟨ClassTag.symbol, "a", [], none⟩
      ⟨ClassTag.symbol, "b", [], none⟩ rfl rfl).2.2.2.2.1⟩

/-- C4: each of the four arithmetic constructors, applied to `(self, other)`,
fails with the unsupported-operand error if and only if `other` is not a
Symbol; on that failure the store is exactly the input store (no node, hence
no partial or invalid tree, is observable); and on a Symbol operand it
succeeds, returning a composite node of the operator's class and name with
exactly two children. -/
theorem C4_operand_rejection (σ : Store) (k : BinKind) (self : Nat) (other : Operand)
    (hself : self < σ.heap.length)
    (hv : ∀ b, other = Operand.sym b → b < σ.heap.length) :
    ((∃ e, (symbolBinOp σ k self other).2 = Except.error e) ↔
      ∀ b, other ≠ Operand.sym b) ∧
    (∀ e, (symbolBinOp σ k self other).2 = Except.error e →
      e = PyError.unsupportedOperand (opName k) ∧ (symbolBinOp σ k self other).1 = σ) ∧
    (∀ b, other = Operand.sym b →
      ∃ c o, (symbolBinOp σ k self other).2 = Except.ok c ∧
        (symbolBinOp σ k self other).1.heap[c]? = some o ∧
        o.tag = opTag k ∧ o.name = opName k ∧ o.children.length = 2) := by
  cases other with
  | sym b =>
    have hb := hv b rfl
    have hres : symbolBinOp σ k self (Operand.sym b) =
        (⟨σ.heap ++ ⟨opTag k, opName k, [σ.heap.length + 1, σ.heap.length + 2], none⟩
            :: [copyObj (σ.heap[self]) σ.heap.length, copyObj (σ.heap[b]) σ.heap.length],
          σ.defaultChildren⟩,
          Except.ok σ.heap.length) := by
      show ((binOpInit σ k self b).1, Except.ok (binOpInit σ k self b).2) = _
      rw [binOpInit_spec σ k self b (σ.heap[self]) (σ.heap[b])
        (List.getElem?_eq_getElem hself) (List.getElem?_eq_getElem hb)]
    rw [hres]
    dsimp only
    refine ⟨?_, ?_, ?_⟩
    · constructor
      · rintro ⟨e, he⟩
        cases he
      · intro hne
        exact absurd rfl (hne b)
    · intro e he
      cases he
    · intro c hc
      refine ⟨σ.heap.length,
        ⟨opTag k, opName k, [σ.heap.length + 1, σ.heap.length + 2], none⟩,
        rfl, getElem?_append_length _ _ _, rfl, rfl, rfl⟩
  | num n =>
    refine ⟨?_, ?_, ?_⟩
    · constructor
      · intro _ b hb
        cases hb
      · intro _
        exact ⟨PyError.unsupportedOperand (opName k), rfl⟩
    · intro e he
      cases he
      exact ⟨rfl, rfl⟩
    · intro b hb
      cases hb

theorem C4_witness :
    (0 : Nat) < c4W.heap.length ∧
      ∃ e, (symbolBinOp c4W BinKind.add 0 (Operand.num 5)).2 = Except.error e :=
  ⟨by decide,
    (C4_operand_rejection c4W BinKind.add 0 (Operand.num 5) (by decide)
      (fun b hb => by cases hb)).1.mpr (fun b hb => by cases hb)⟩

/-- C5: for every `t` and `y` (both optional, so also both omitted), calling
`evaluate` on a node of the base `Symbol` kind — which supplies no overriding
semantics — fails with the evaluation-not-implemented error carrying the
node's name and its concrete-kind identifier, returned directly to the
caller. -/
theorem C5_evaluate_not_implemented (σ : Store) (a : Nat) (o : Obj)
    (ha : σ.heap[a]? = some o) (htag : o.tag = ClassTag.symbol) (t y : Option Int) :
    symbolEvaluate σ a t y =
      Except.error (PyError.evaluationNotImplemented o.name o.tag) := by
  simp only [symbolEvaluate, ha, htag]

theorem C5_witness :
    c4W.heap[0]? = some ⟨ClassTag.symbol, "a", [], none⟩ ∧
    symbolEvaluate c4W 0 none none =
      Except.error (PyError.evaluationNotImplemented "a" ClassTag.symbol) ∧
    symbolEvaluate c4W 0 (some 3) (some 7) =
      Except.error (PyError.evaluationNotImplemented "a" ClassTag.symbol) :=
  ⟨rfl,
    C5_evaluate_not_implemented c4W 0 ⟨ClassTag.symbol, "a", [], none⟩ rfl rfl none none,
    C5_evaluate_not_implemented c4W 0 ⟨ClassTag.symbol, "a", [], none⟩ rfl rfl
      (some 3) (some 7)⟩

/-- C10: no construction step ever mutates the children collection it was
given: across any sequence of constructions the shared default-children list
of `Symbol.__init__` is exactly what it was initially (empty at interpreter
start), and therefore every Symbol constructed with the children argument
omitted records zero children. -/
theorem C10_default_children_never_mutated (ops : List ConstructOp) (σ : Store)
    (t : ClassTag) (n : String) :
    (runOps σ ops).defaultChildren = σ.defaultChildren ∧
    (runOps emptyStore ops).defaultChildren = [] ∧
    (symbolInitOpt (runOps emptyStore ops) t n none).1.heap[(symbolInitOpt
      (runOps emptyStore ops) t n none).2]? = some ⟨t, n, [], none⟩ := by
  refine ⟨runOps_defaultChildren ops σ, runOps_defaultChildren ops emptyStore, ?_⟩
  have hdef : (runOps emptyStore ops).defaultChildren = [] :=
    runOps_defaultChildren ops emptyStore
  show (symbolInit (runOps emptyStore ops) t n
      (runOps emptyStore ops).defaultChildren).1.heap[(symbolInit (runOps emptyStore ops) t n
      (runOps emptyStore ops).defaultChildren).2]? = some ⟨t, n, [], none⟩
  rw [hdef, symbolInit_spec _ t n [] (fun c hc => absurd hc (List.not_mem_nil c))]
  dsimp only
  have hlook := getElem?_append_length (runOps emptyStore ops).heap
    (⟨t, n, List.range' ((runOps emptyStore ops).heap.length + 1) 0, none⟩ : Obj) []
  simp only [List.range'_zero] at hlook ⊢
  exact hlook

/-- C6: for the tree built as `(a + b) * c` from leaves `a`, `b`, `c`,
`pre_order` yields exactly five nodes, in order: the multiplication root, the
addition node, the clone of `a`, the clone of `b`, the clone of `c` — every
node before its children, children left-to-right in stored order — and the
sequence is finite and independent of any extra recursion fuel.  The lookup
conjuncts identify the five visited nodes (classes, names, stored child
order) and the id-equality conjuncts identify the clones with the original
leaves and the addition node. -/
theorem C6_pre_order_law (σ σ1 σ2 : Store) (a b c p q : Nat) (oa ob oc : Obj)
    (ha : σ.heap[a]? = some oa) (hb : σ.heap[b]? = some ob) (hc : σ.heap[c]? = some oc)
    (la : oa.children = []) (lb : ob.children = []) (lc : oc.children = [])
    (h1 : binOpInit σ BinKind.add a b = (σ1, p))
    (h2 : binOpInit σ1 BinKind.mul p c = (σ2, q)) :
    (∀ fuel, pre_order σ2 (fuel + 3) q = [q, q + 1, p + 1, p + 2, q + 2]) ∧
    σ2.heap[q]? = some ⟨ClassTag.multiplication, "*", [q + 1, q + 2], none⟩ ∧
    σ2.heap[q + 1]? = some ⟨ClassTag.addition, "+", [p + 1, p + 2], some q⟩ ∧
    σ2.heap[p + 1]? = some (copyObj oa p) ∧
    σ2.heap[p + 2]? = some (copyObj ob p) ∧
    σ2.heap[q + 2]? = some (copyObj oc q) ∧
    (∀ (h : HashInput → Int) (fuel : Nat),
      symbolId h σ2 fuel (q + 1) = symbolId h σ2 fuel p) ∧
    (∀ (h : HashInput → Int) (fuel : Nat),
      symbolId h σ2 fuel (p + 1) = symbolId h σ2 fuel a) ∧
    (∀ (h : HashInput → Int) (fuel : Nat),
      symbolId h σ2 fuel (p + 2) = symbolId h σ2 fuel b) ∧
    (∀ (h : HashInput → Int) (fuel : Nat),
      symbolId h σ2 fuel (q + 2) = symbolId h σ2 fuel c) := by
  obtain ⟨hla, -⟩ := List.getElem?_eq_some.mp ha
  obtain ⟨hlb, -⟩ := List.getElem?_eq_some.mp hb
  obtain ⟨hlc, -⟩ := List.getElem?_eq_some.mp hc
  have hspec1 := binOpInit_spec σ BinKind.add a b oa ob ha hb
  simp only [opTag, opName] at hspec1
  obtain ⟨hσ1, hp⟩ := Prod.ext_iff.mp (h1.symm.trans hspec1)
  dsimp only at hσ1 hp
  have hlookp : σ1.heap[p]? = some ⟨ClassTag.addition, "+", [p + 1, p + 2], none⟩ := by
    rw [hσ1, hp]
    exact getElem?_append_length _ _ _
  have hlookc1 : σ1.heap[c]? = some oc := by
    rw [hσ1]
    show (σ.heap ++ _)[c]? = _
    rw [List.getElem?_append_left hlc]
    exact hc
  have hspec2 := binOpInit_spec σ1 BinKind.mul p c _ oc hlookp hlookc1
  simp only [opTag, opName] at hspec2
  obtain ⟨hσ2, hq⟩ := Prod.ext_iff.mp (h2.symm.trans hspec2)
  dsimp only at hσ2 hq
  have hqp : σ1.heap.length = p + 3 := by
    rw [hσ1, hp]
    simp
  have lkq : σ2.heap[q]? = some ⟨ClassTag.multiplication, "*", [q + 1, q + 2], none⟩ := by
    rw [hσ2, hq]
    exact getElem?_append_length _ _ _
  have lkq1 : σ2.heap[q + 1]? = some ⟨ClassTag.addition, "+", [p + 1, p + 2], some q⟩ := by
    rw [hσ2, hq]
    have := getElem?_append_cons_succ σ1.heap
      (⟨ClassTag.multiplication, "*", [σ1.heap.length + 1, σ1.heap.length + 2], none⟩ : Obj)
      [copyObj ⟨ClassTag.addition, "+", [p + 1, p + 2], none⟩ σ1.heap.length,
        copyObj oc σ1.heap.length] 0
    simpa [copyObj] using this
  have lkq2 : σ2.heap[q + 2]? = some (copyObj oc q) := by
    rw [hσ2, hq]
    have := getElem?_append_cons_succ σ1.heap
      (⟨ClassTag.multiplication, "*", [σ1.heap.length + 1, σ1.heap.length + 2], none⟩ : Obj)
      [copyObj ⟨ClassTag.addition, "+", [p + 1, p + 2], none⟩ σ1.heap.length,
        copyObj oc σ1.heap.length] 1
    simpa [Nat.add_assoc] using this
  have lkp : σ2.heap[p]? = some ⟨ClassTag.addition, "+", [p + 1, p + 2], none⟩ := by
    rw [hσ2]
    show (σ1.heap ++ _)[p]? = _
    rw [List.getElem?_append_left (by omega : p < σ1.heap.length)]
    exact hlookp
  have lkp1 : σ2.heap[p + 1]? = some (copyObj oa p) := by
    rw [hσ2]
    show (σ1.heap ++ _)[p + 1]? = _
    rw [List.getElem?_append_left (by omega : p + 1 < σ1.heap.length)]
    rw [hσ1, hp]
    have := getElem?_append_cons_succ σ.heap
      (⟨ClassTag.addition, "+", [σ.heap.length + 1, σ.heap.length + 2], none⟩ : Obj)
      [copyObj oa σ.heap.length, copyObj ob σ.heap.length] 0
    simpa using this
  have lkp2 : σ2.heap[p + 2]? = some (copyObj ob p) := by
    rw [hσ2]
    show (σ1.heap ++ _)[p + 2]? = _
    rw [List.getElem?_append_left (by omega : p + 2 < σ1.heap.length)]
    rw [hσ1, hp]
    have := getElem?_append_cons_succ σ.heap
      (⟨ClassTag.addition, "+", [σ.heap.length + 1, σ.heap.length + 2], none⟩ : Obj)
      [copyObj oa σ.heap.length, copyObj ob σ.heap.length] 1
    simpa [Nat.add_assoc] using this
  have lka : σ2.heap[a]? = some oa := by
    rw [hσ2]
    show (σ1.heap ++ _)[a]? = _
    rw [List.getElem?_append_left (by omega : a < σ1.heap.length), hσ1]
    show (σ.heap ++ _)[a]? = _
    rw [List.getElem?_append_left hla]
    exact ha
  have lkb : σ2.heap[b]? = some ob := by
    rw [hσ2]
    show (σ1.heap ++ _)[b]? = _
    rw [List.getElem?_append_left (by omega : b < σ1.heap.length), hσ1]
    show (σ.heap ++ _)[b]? = _
    rw [List.getElem?_append_left hlb]
    exact hb
  have lkc : σ2.heap[c]? = some oc := by
    rw [hσ2]
    show (σ1.heap ++ _)[c]? = _
    rw [List.getElem?_append_left (by omega : c < σ1.heap.length)]
    exact hlookc1
  refine ⟨?_, lkq, lkq1, lkp1, lkp2, lkq2, ?_, ?_, ?_, ?_⟩
  · intro fuel
    show pre_order σ2 (fuel + 1 + 1 + 1) q = _
    simp only [pre_order, lkq, lkq1, lkq2, lkp1, lkp2, copyObj, la, lb, lc,
      List.flatMap_cons, List.flatMap_nil]
    simp
  · intro h fuel
    exact symbolId_congr h _ _ _ ⟨ClassTag.addition, "+", [p + 1, p + 2], some q⟩
      ⟨ClassTag.addition, "+", [p + 1, p + 2], none⟩ lkq1 lkp rfl rfl rfl fuel
  · intro h fuel
    exact symbolId_congr h _ _ _ (copyObj oa p) oa lkp1 lka rfl rfl rfl fuel
  · intro h fuel
    exact symbolId_congr h _ _ _ (copyObj ob p) ob lkp2 lkb rfl rfl rfl fuel
  · intro h fuel
    exact symbolId_congr h _ _ _ (copyObj oc q) oc lkq2 lkc rfl rfl rfl fuel

theorem C6_witness :
    c6W.heap[0]? = some ⟨ClassTag.symbol, "a", [], none⟩ ∧
    c6W.heap[1]? = some ⟨ClassTag.symbol, "b", [], none⟩ ∧
    c6W.heap[2]? = some ⟨ClassTag.symbol, "c", [], none⟩ ∧
    pre_order c6Q.1 3 c6Q.2 = [6, 7, 4, 5, 8] :=
  ⟨rfl, rfl, rfl,
    (C6_pre_order_law c6W c6P.1 c6Q.1 0 1 2 c6P.2 c6Q.2
      ⟨ClassTag.symbol, "a", [], none⟩ ⟨ClassTag.symbol, "b", [], none⟩
      ⟨ClassTag.symbol, "c", [], none⟩ rfl rfl rfl rfl rfl rfl rfl rfl).1 0⟩

/-- The id of a node with exactly two children unfolds in one step from its
children's ids. -/
theorem symbolId_node2 (h : HashInput → Int) (σ : Store) (x c1 c2 : Nat) (o : Obj)
    (hx : σ.heap[x]? = some o) (hc : o.children = [c1, c2]) (i1 i2 : Int) (fuel : Nat)
    (e1 : symbolId h σ fuel c1 = some i1) (e2 : symbolId h σ fuel c2 = some i2) :
    symbolId h σ (fuel + 1) x = some (h (o.tag, o.name, [i1, i2])) := by
  simp only [symbolId, hx, hc, List.map_cons, List.map_nil, e1, e2, optionSeq]

/-- C7: for leaves `a` and `b` with `a.id ≠ b.id`, `(a + b).id ≠ (b + a).id`
— the structural fingerprint is sensitive to the order of the children
(stated for a collision-free in-process hash function). -/
theorem C7_order_sensitivity (h : HashInput → Int) (hinj : Function.Injective h)
    (σ σ1 σ2 : Store) (a b p q : Nat) (oa ob : Obj)
    (ha : σ.heap[a]? = some oa) (hb : σ.heap[b]? = some ob)
    (la : oa.children = []) (lb : ob.children = [])
    (hne : symbolId h σ 1 a ≠ symbolId h σ 1 b)
    (h1 : binOpInit σ BinKind.add a b = (σ1, p))
    (h2 : binOpInit σ1 BinKind.add b a = (σ2, q)) :
    ∀ fuel, symbolId h σ2 (fuel + 2) p ≠ symbolId h σ2 (fuel + 2) q := by
  obtain ⟨hla, -⟩ := List.getElem?_eq_some.mp ha
  obtain ⟨hlb, -⟩ := List.getElem?_eq_some.mp hb
  have hspec1 := binOpInit_spec σ BinKind.add a b oa ob ha hb
  simp only [opTag, opName] at hspec1
  obtain ⟨hσ1, hp⟩ := Prod.ext_iff.mp (h1.symm.trans hspec1)
  dsimp only at hσ1 hp
  have hlookb1 : σ1.heap[b]? = some ob := by
    rw [hσ1]
    show (σ.heap ++ _)[b]? = _
    rw [List.getElem?_append_left hlb]
    exact hb
  have hlooka1 : σ1.heap[a]? = some oa := by
    rw [hσ1]
    show (σ.heap ++ _)[a]? = _
    rw [List.getElem?_append_left hla]
    exact ha
  have hspec2 := binOpInit_spec σ1 BinKind.add b a ob oa hlookb1 hlooka1
  simp only [opTag, opName] at hspec2
  obtain ⟨hσ2, hq⟩ := Prod.ext_iff.mp (h2.symm.trans hspec2)
  dsimp only at hσ2 hq
  have hqp : σ1.heap.length = p + 3 := by
    rw [hσ1, hp]
    simp
  have lkp : σ2.heap[p]? = some ⟨ClassTag.addition, "+", [p + 1, p + 2], none⟩ := by
    rw [hσ2]
    show (σ1.heap ++ _)[p]? = _
    rw [List.getElem?_append_left (by omega : p < σ1.heap.length), hσ1, hp]
    exact getElem?_append_length _ _ _
  have lkp1 : σ2.heap[p + 1]? = some (copyObj oa p) := by
    rw [hσ2]
    show (σ1.heap ++ _)[p + 1]? = _
    rw [List.getElem?_append_left (by omega : p + 1 < σ1.heap.length), hσ1, hp]
    have := getElem?_append_cons_succ σ.heap
      (⟨ClassTag.addition, "+", [σ.heap.length + 1, σ.heap.length + 2], none⟩ : Obj)
      [copyObj oa σ.heap.length, copyObj ob σ.heap.length] 0
    simpa using this
  have lkp2 : σ2.heap[p + 2]? = some (copyObj ob p) := by
    rw [hσ2]
    show (σ1.heap ++ _)[p + 2]? = _
    rw [List.getElem?_append_left (by omega : p + 2 < σ1.heap.length), hσ1, hp]
    have := getElem?_append_cons_succ σ.heap
      (⟨ClassTag.addition, "+", [σ.heap.length + 1, σ.heap.length + 2], none⟩ : Obj)
      [copyObj oa σ.heap.length, copyObj ob σ.heap.length] 1
    simpa [Nat.add_assoc] using this
  have lkq : σ2.heap[q]? = some ⟨ClassTag.addition, "+", [q + 1, q + 2], none⟩ := by
    rw [hσ2, hq]
    exact getElem?_append_length _ _ _
  have lkq1 : σ2.heap[q + 1]? = some (copyObj ob q) := by
    rw [hσ2, hq]
    have := getElem?_append_cons_succ σ1.heap
      (⟨ClassTag.addition, "+", [σ1.heap.length + 1, σ1.heap.length + 2], none⟩ : Obj)
      [copyObj ob σ1.heap.length, copyObj oa σ1.heap.length] 0
    simpa using this
  have lkq2 : σ2.heap[q + 2]? = some (copyObj oa q) := by
    rw [hσ2, hq]
    have := getElem?_append_cons_succ σ1.heap
      (⟨ClassTag.addition, "+", [σ1.heap.length + 1, σ1.heap.length + 2], none⟩ : Obj)
      [copyObj ob σ1.heap.length, copyObj oa σ1.heap.length] 1
    simpa [Nat.add_assoc] using this
  intro fuel
  have ep1 : symbolId h σ2 (fuel + 1) (p + 1) = some (h (oa.tag, oa.name, [])) :=
    symbolId_leaf h σ2 (p + 1) (copyObj oa p) lkp1 la fuel
  have ep2 : symbolId h σ2 (fuel + 1) (p + 2) = some (h (ob.tag, ob.name, [])) :=
    symbolId_leaf h σ2 (p + 2) (copyObj ob p) lkp2 lb fuel
  have eq1 : symbolId h σ2 (fuel + 1) (q + 1) = some (h (ob.tag, ob.name, [])) :=
    symbolId_leaf h σ2 (q + 1) (copyObj ob q) lkq1 lb fuel
  have eq2 : symbolId h σ2 (fuel + 1) (q + 2) = some (h (oa.tag, oa.name, [])) :=
    symbolId_leaf h σ2 (q + 2) (copyObj oa q) lkq2 la fuel
  have idp : symbolId h σ2 (fuel + 2) p =
      some (h (ClassTag.addition, "+", [h (oa.tag, oa.name, []), h (ob.tag, ob.name, [])])) :=
    symbolId_node2 h σ2 p (p + 1) (p + 2) _ lkp rfl _ _ (fuel + 1) ep1 ep2
  have idq : symbolId h σ2 (fuel + 2) q =
      some (h (ClassTag.addition, "+", [h (ob.tag, ob.name, []), h (oa.tag, oa.name, [])])) :=
    symbolId_node2 h σ2 q (q + 1) (q + 2) _ lkq rfl _ _ (fuel + 1) eq1 eq2
  have ea : symbolId h σ 1 a = some (h (oa.tag, oa.name, [])) :=
    symbolId_leaf h σ a oa ha la 0
  have eb : symbolId h σ 1 b = some (h (ob.tag, ob.name, [])) :=
    symbolId_leaf h σ b ob hb lb 0
  intro heq
  rw [idp, idq] at heq
  have htup := hinj (Option.some.inj heq)
  simp only [Prod.mk.injEq, List.cons.injEq, true_and, and_true] at htup
  exact hne (by rw [ea, eb, htup.1])

theorem C7_witness :
    symbolId hashConc c2W 1 0 ≠ symbolId hashConc c2W 1 1 ∧
    symbolId hashConc c7Q.1 2 c7P.2 ≠ symbolId hashConc c7Q.1 2 c7Q.2 :=
  ⟨by decide,
    C7_order_sensitivity hashConc hashConc_injective c2W c7P.1 c7Q.1 0 1 c7P.2 c7Q.2
      ⟨ClassTag.symbol, "a", [], none⟩ ⟨ClassTag.symbol, "b", [], none⟩
      rfl rfl rfl rfl (by decide) rfl rfl 0⟩

/-- C8: two successive calls of `pre_order()` on the same unmodified tree —
the second run performed on the store left behind by the first — yield
sequences with identical contents in identical order, and neither traversal
modifies the store. -/
theorem C8_pre_order_restartable (σ : Store) (fuel a : Nat) :
    (preOrderRun σ fuel a).1 = (preOrderRun (preOrderRun σ fuel a).2 fuel a).1 ∧
    (preOrderRun (preOrderRun σ fuel a).2 fuel a).2 = σ :=
  ⟨rfl, rfl⟩

/-- C3 counterexample: the claimed invariant fails on the concrete tree
`(a + b) * c`.  The node at address 7 — the copy of the addition node
attached under the multiplication root — records the child addresses 4 and 5
(`copy.copy` is shallow: it shares the original's children list), but the
record at address 4 has parent 3, the original addition node, not 7; the
attached copy therefore shares its subtree below the first level with the
original, and the claimed parent back-reference/no-aliasing property is
violated at depth 2. -/
theorem C3_counterexample : ¬ OwnedChildren cexStore := by
  intro hOC
  obtain ⟨co, hco, hpar⟩ :=
    hOC 7 ⟨ClassTag.addition, "+", [4, 5], some 6⟩ (by decide) 4 (by decide)
  have h4 : cexStore.heap[4]? = some ⟨ClassTag.symbol, "a", [], some 3⟩ := by decide
  rw [hco] at h4
  cases h4
  exact absurd hpar (by decide)

/-- C3 (amended): the exclusive-ownership invariant holds for the directly
attached children of each construction (but not hereditarily): a
construction with valid child addresses records exactly the fresh,
pairwise-distinct addresses just beyond the old heap as its children; the
record at each such address has its parent back-reference set to the new
node and is a shallow copy of the corresponding original (same class, name
and children addresses); and no pre-existing record is modified. -/
theorem C3_amended_direct_children_owned (σ : Store) (tag : ClassTag) (name : String)
    (cs : List Nat) (hcs : ∀ c ∈ cs, c < σ.heap.length) :
    ((symbolInit σ tag name cs).1.heap[(symbolInit σ tag name cs).2]? =
      some ⟨tag, name, List.range' (σ.heap.length + 1) cs.length, none⟩) ∧
    (List.range' (σ.heap.length + 1) cs.length).Nodup ∧
    (∀ x ∈ List.range' (σ.heap.length + 1) cs.length, σ.heap.length < x) ∧
    (∀ i, ∀ hi : i < cs.length,
      (symbolInit σ tag name cs).1.heap[σ.heap.length + 1 + i]? =
        some (copyObj (σ.heap.getD (cs.get ⟨i, hi⟩) dObj) σ.heap.length)) ∧
    (∀ x, x < σ.heap.length → (symbolInit σ tag name cs).1.heap[x]? = σ.heap[x]?) := by
  rw [symbolInit_spec σ tag name cs hcs]
  dsimp only
  refine ⟨getElem?_append_length _ _ _, List.nodup_range' _ _, ?_, ?_, ?_⟩
  · intro x hx
    have := List.mem_range'_1.mp hx
    omega
  · intro i hi
    have hstep := getElem?_append_cons_succ σ.heap
      (⟨tag, name, List.range' (σ.heap.length + 1) cs.length, none⟩ : Obj)
      (cs.map (fun c => copyObj (σ.heap.getD c dObj) σ.heap.length)) i
    rw [hstep, List.getElem?_map, List.getElem?_eq_getElem hi]
    simp [List.get_eq_getElem]
  · intro x hx
    exact List.getElem?_append_left hx

theorem C3_witness :
    (∀ c ∈ ([0, 1] : List Nat), c < c2W.heap.length) ∧
    (symbolInit c2W ClassTag.symbol "s" [0, 1]).1.heap[(symbolInit c2W
      ClassTag.symbol "s" [0, 1]).2]? = some ⟨ClassTag.symbol, "s", [3, 4], none⟩ :=
  ⟨by decide,
    (C3_amended_direct_children_owned c2W ClassTag.symbol "s" [0, 1] (by decide)).1⟩

/-- Normal form of the constructor on a two-variable `lims`: coordinate check
first, then the name check per variable in order, then the success path. -/
theorem submeshInit_two {T : Type} (cos : ℚ → ℚ) (pi : ℚ) (npts : Nat → Nat) (tabs : T)
    (v1 v2 : SpatialVar) (l1 l2 : Limits) :
    scikitChebyshev2DSubMeshInit cos pi [(v1, l1), (v2, l2)] npts tabs =
      (if v1.coord_sys = v2.coord_sys then
        (if v1.name ∈ (["y", "z"] : List String) then
          (if v2.name ∈ (["y", "z"] : List String) then
            Except.ok ⟨[(v1.name, chebEdges cos pi l1.min l1.max (npts v1.id)),
              (v2.name, chebEdges cos pi l2.min l2.max (npts v2.id))], v1.coord_sys, tabs⟩
          else
            Except.error (PyError.domainError
              ("spatial variable must be y or z not " ++ v2.name)))
        else
          Except.error (PyError.domainError
            ("spatial variable must be y or z not " ++ v1.name)))
      else
        Except.error (PyError.domainError
          ("spatial variables should have the same coordinate system, but have coordinate systems "
            ++ v1.coord_sys ++ " and " ++ v2.coord_sys))) := by
  by_cases hco : v1.coord_sys = v2.coord_sys
  · by_cases h1 : v1.name ∈ (["y", "z"] : List String)
    · by_cases h2 : v2.name ∈ (["y", "z"] : List String)
      · simp [scikitChebyshev2DSubMeshInit, edgesFor, hco, h1, h2]
      · simp [scikitChebyshev2DSubMeshInit, edgesFor, hco, h1, h2]
    · simp [scikitChebyshev2DSubMeshInit, edgesFor, hco, h1]
  · simp [scikitChebyshev2DSubMeshInit, edgesFor, hco]

/-- C9: the 2D Chebyshev submesh constructor validates its input before
building any mesh structure: it fails with `GeometryError` exactly when
`lims` does not contain exactly two variables; given exactly two variables
it fails with `DomainError` exactly when the two coordinate systems differ
or a variable's name is outside {y, z}; and whenever any of these failure
conditions holds, no submesh object is produced. -/
theorem C9_submesh_validation {T : Type} (cos : ℚ → ℚ) (pi : ℚ)
    (npts : Nat → Nat) (tabs : T) :
    (∀ lims : List (SpatialVar × Limits),
      ((∃ m, scikitChebyshev2DSubMeshInit cos pi lims npts tabs =
        Except.error (PyError.geometryError m)) ↔ lims.length ≠ 2)) ∧
    (∀ (v1 v2 : SpatialVar) (l1 l2 : Limits),
      ((∃ m, scikitChebyshev2DSubMeshInit cos pi [(v1, l1), (v2, l2)] npts tabs =
        Except.error (PyError.domainError m)) ↔
        (v1.coord_sys ≠ v2.coord_sys ∨ v1.name ∉ (["y", "z"] : List String) ∨
          v2.name ∉ (["y", "z"] : List String))) ∧
      ((v1.coord_sys ≠ v2.coord_sys ∨ v1.name ∉ (["y", "z"] : List String) ∨
          v2.name ∉ (["y", "z"] : List String)) →
        ∀ m, scikitChebyshev2DSubMeshInit cos pi [(v1, l1), (v2, l2)] npts tabs ≠
          Except.ok m)) := by
  constructor
  · intro lims
    by_cases hlen : lims.length = 2
    · match lims, hlen with
      | [(v1, l1), (v2, l2)], _ =>
        rw [submeshInit_two]
        constructor
        · rintro ⟨m, hm⟩
          split_ifs at hm <;> simp_all
        · intro hne
          simp at hne
    · constructor
      · intro _
        exact hlen
      · intro _
        refine ⟨"lims should contain exactly two variables, not " ++ toString lims.length, ?_⟩
        unfold scikitChebyshev2DSubMeshInit
        rw [if_pos hlen]
  · intro v1 v2 l1 l2
    rw [submeshInit_two]
    by_cases hco : v1.coord_sys = v2.coord_sys
    · by_cases h1 : v1.name ∈ (["y", "z"] : List String)
      · by_cases h2 : v2.name ∈ (["y", "z"] : List String)
        · rw [if_pos hco, if_pos h1, if_pos h2]
          constructor
          · constructor
            · rintro ⟨m, hm⟩
              cases hm
            · intro hfail
              rcases hfail with hf | hf | hf
              · exact absurd hco hf
              · exact absurd h1 hf
              · exact absurd h2 hf
          · intro hfail m
            rcases hfail with hf | hf | hf
            · exact absurd hco hf
            · exact absurd h1 hf
            · exact absurd h2 hf
        · rw [if_pos hco, if_pos h1, if_neg h2]
          exact ⟨⟨fun _ => Or.inr (Or.inr h2), fun _ => ⟨_, rfl⟩⟩, fun _ m hm => by cases hm⟩
      · rw [if_pos hco, if_neg h1]
        exact ⟨⟨fun _ => Or.inr (Or.inl h1), fun _ => ⟨_, rfl⟩⟩, fun _ m hm => by cases hm⟩
    · rw [if_neg hco]
      exact ⟨⟨fun _ => Or.inl hco, fun _ => ⟨_, rfl⟩⟩, fun _ m hm => by cases hm⟩

theorem C9_witness :
    ∃ m, scikitChebyshev2DSubMeshInit (fun x => x) 3
      [(⟨"y", "cartesian", 0⟩, ⟨0, 1⟩)] (fun _ => 5) (0 : Nat) =
      Except.error (PyError.geometryError m) :=
  ((C9_submesh_validation (fun x => x) 3 (fun _ => 5) (0 : Nat)).1
    [(⟨"y", "cartesian", 0⟩, ⟨0, 1⟩)]).mpr (by decide)
